import Mathlib

/-!
Verification of the go-locks library: a ticket lock (package ticket),
an array-based queue lock (package alock) and an MCS queue lock
(package mcs).  Each Go function is shallowly embedded as a pure Lean
function over an explicit state; Go uint32 arithmetic is Nat arithmetic
reduced modulo 2^32 where the source can wrap.  Operations are given
sequential (interference-free) semantics: an atomic read-modify-write
sees the state left by the previous operation.
-/

namespace GoLocks

/-- Modulus of Go uint32 arithmetic, 2^32. -/
def U32 : Nat := 4294967296

/-- Go uint32 subtraction a - b: wraps modulo 2^32 (inputs assumed < 2^32). -/
def wsub (a b : Nat) : Nat := (a + U32 - b) % U32

/-- Go uint32 addition. -/
def wadd (a b : Nat) : Nat := (a + b) % U32

/-- From ticket.go: subAbs returns a - b when a > b, b - a otherwise,
in uint32 arithmetic. -/
def subAbs (a b : Nat) : Nat := if a > b then wsub a b else wsub b a

/-- State of the ticket Lock: head is the ticket currently served, tail the
last ticket issued (fields of struct Lock in ticket.go). -/
structure TicketLock where
  head : Nat
  tail : Nat
deriving DecidableEq

/-- Well-formedness: both counters are 32-bit values. -/
def TicketLock.wf (l : TicketLock) : Prop := l.head < U32 ∧ l.tail < U32

instance (l : TicketLock) : Decidable l.wf := by
  unfold TicketLock.wf; infer_instance

/-- NewLock from ticket.go: head = 1, tail = 0. -/
def newTicketLock : TicketLock := ⟨1, 0⟩

/-- The combined 64-bit word the CAS in TryLock operates on:
head in the high 32 bits, tail in the low 32 bits. -/
def packWord (h t : Nat) : Nat := (h % U32) * U32 + t % U32

/-- The packed word of a lock state. -/
def TicketLock.word (l : TicketLock) : Nat := packWord l.head l.tail

/-- TryLock from ticket.go: read me = tail, then one CAS of the packed word
from (me+1)<<32|me to (me+1)<<32|(me+1).  Sequential semantics: the CAS
sees the same state as the initial read.  Returns the outcome and the
resulting state. -/
def TicketLock.tryLock (l : TicketLock) : Bool × TicketLock :=
  let me := l.tail % U32
  let meNew := wadd me 1
  if l.word = packWord (wadd me 1) me then
    (true, ⟨wadd me 1, meNew⟩)
  else
    (false, l)

/-- Constant ticketBaseWait from ticket.go. -/
def ticketBaseWait : Nat := 10

/-- Constant ticketWaitNext from ticket.go. -/
def ticketWaitNext : Nat := 5

/-- isFree from ticket.go: (head - tail) == 1 in uint32 arithmetic. -/
def TicketLock.isFree (l : TicketLock) : Bool := wsub l.head l.tail = 1

/-- Unlock from ticket.go: head is atomically incremented. -/
def TicketLock.unlock (l : TicketLock) : TicketLock := ⟨wadd l.head 1, l.tail⟩

/-- Observable behaviour of one probe of the wait loop in Lock:
how many empty busy-spin iterations run, whether the millisecond sleep
runs, and the wait / distancePrev values carried to the next probe. -/
structure ProbeResult where
  spinIters : Nat
  sleeps : Bool
  wait : Nat
  distancePrev : Nat
deriving DecidableEq

/-- One iteration of the wait loop body of Lock (ticket.go), entered when
head ≠ myTicket: computes distance = subAbs(head, myTicket), resets wait
to ticketBaseWait when distance > 1 and distance changed since the last
probe, spins distance * wait times (uint32 product) when distance > 1 and
ticketWaitNext times otherwise, and sleeps a millisecond when
distance > 20. -/
def lockProbe (head ticket wait distancePrev : Nat) : ProbeResult :=
  let distance := subAbs head ticket
  if distance > 1 then
    let distancePrev2 := if distance ≠ distancePrev then distance else distancePrev
    let wait2 := if distance ≠ distancePrev then ticketBaseWait else wait
    { spinIters := distance * wait2 % U32
      sleeps := decide (distance > 20)
      wait := wait2
      distancePrev := distancePrev2 }
  else
    { spinIters := ticketWaitNext
      sleeps := decide (distance > 20)
      wait := wait
      distancePrev := distancePrev }

/-- One full check of the wait loop in Lock: none when head = myTicket
(the loop exits and the lock is acquired, with no spinning), otherwise
the probe behaviour of this iteration.  The fast path before the loop is
the first such check, with wait = ticketBaseWait and distancePrev = 1. -/
def lockWaitStep (head ticket wait distancePrev : Nat) : Option ProbeResult :=
  if head = ticket then none
  else some (lockProbe head ticket wait distancePrev)

/-- Ticket handed to a caller of Lock: atomic.AddUint32 on tail returns the
incremented value. -/
def ticketOf (l : TicketLock) : Nat := wadd l.tail 1

/-! ### ArrayLock (package alock) -/

/-- Struct Share from alock: the flags array, the atomic tail counter and
the capacity. -/
structure Share where
  flags : List Nat
  tail : Nat
  size : Nat
deriving DecidableEq

/-- Struct ArrayLock from alock: the shared state and the slot index of the
current holder. -/
structure ArrayLock where
  share : Share
  myIndex : Nat
deriving DecidableEq

/-- NewArrayLock from alock: flags is a zeroed slice of length
numGoroutines with flags[0] set to 1, tail = 0, size = numGoroutines.
The write share.flags[0] = 1 panics when numGoroutines = 0, modelled as
none. -/
def newArrayLock (numGoroutines : Nat) : Option ArrayLock :=
  if numGoroutines = 0 then none
  else some ⟨⟨(List.replicate numGoroutines 0).set 0 1, 0, numGoroutines⟩, 0⟩

/-- ArrayLock.Lock up to its spin loop: atomic.AddUint32 on tail returns the
incremented value, which is reduced modulo size to give the slot; myIndex
is set to the slot.  The returned Bool tells whether the flag of that slot
is already nonzero, i.e. whether the spin loop exits without any other
goroutine running (the loop spins while the flag is 0). -/
def alockLockEnter (al : ArrayLock) : ArrayLock × Nat × Bool :=
  let s := al.share
  let slot := wadd s.tail 1 % s.size
  let s2 : Share := ⟨s.flags, wadd s.tail 1, s.size⟩
  (⟨s2, slot⟩, slot, decide (s2.flags.getD slot 0 ≠ 0))

/-- ArrayLock.Unlock from alock: store 0 to the holder's slot flag, then
store 1 to the flag of slot (myIndex+1) mod size. -/
def alockUnlock (al : ArrayLock) : ArrayLock :=
  let s := al.share
  let slot := al.myIndex
  let nextSlot := (slot + 1) % s.size
  ⟨⟨(s.flags.set slot 0).set nextSlot 1, s.tail, s.size⟩, al.myIndex⟩

/-- ArrayLock.TryLock from alock: load tail; if the flag at tail mod size
is 1, CAS tail to tail+1 (sequentially this CAS always succeeds since tail
is unchanged since the load), record myIndex and return true; otherwise
return false with nothing written. -/
def alockTryLock (al : ArrayLock) : Bool × ArrayLock :=
  let s := al.share
  let tl := s.tail
  if s.flags.getD (tl % s.size) 0 = 1 then
    (true, ⟨⟨s.flags, wadd tl 1, s.size⟩, tl % s.size⟩)
  else
    (false, al)

/-- Exactly the flag at index i is open: flags[i] = 1 and every other
in-range flag is 0. -/
def exactlyOneOpen (flags : List Nat) (i : Nat) : Prop :=
  flags.getD i 0 = 1 ∧ ∀ j, j < flags.length → j ≠ i → flags.getD j 0 = 0

instance (flags : List Nat) (i : Nat) : Decidable (exactlyOneOpen flags i) := by
  unfold exactlyOneOpen
  infer_instance

/-! ### MCSLock (package mcs) -/

/-- Struct QNode from mcs: the next pointer (a node id, or none for nil)
and the waiting flag. -/
structure QNode where
  next : Option Nat
  waiting : Nat
deriving DecidableEq

/-- Struct Lock from mcs: the tail pointer, none when empty. -/
structure MCSLock where
  tail : Option Nat
deriving DecidableEq

/-- A lock together with the heap of queue nodes, identified by their index
in the list. -/
structure MCSState where
  lock : MCSLock
  nodes : List QNode
deriving DecidableEq

/-- NewLock from mcs: zero value, tail = nil. -/
def newMCSLock : MCSLock := ⟨none⟩

/-- IsFree from mcs: tail is nil. -/
def mcsIsFree (l : MCSLock) : Bool := l.tail = none

/-- Default node used by list reads (never observed under the length
hypotheses of the theorems). -/
def qnodeD : QNode := ⟨none, 0⟩

/-- TryLock from mcs: store nil to node.next, then one CAS of tail from
nil to the node; true iff tail was nil, in which case tail now points to
the node. -/
def mcsTryLock (s : MCSState) (id : Nat) : Bool × MCSState :=
  let nodes2 := s.nodes.set id ⟨none, (s.nodes.getD id qnodeD).waiting⟩
  match s.lock.tail with
  | none => (true, ⟨⟨some id⟩, nodes2⟩)
  | some _ => (false, ⟨s.lock, nodes2⟩)

/-- Unlock from mcs: if node.next is nil, CAS tail from the node to nil;
on CAS success return, the lock is free.  On CAS failure the code spins
until node.next becomes non-nil, which in the sequential semantics never
happens: modelled as none.  If node.next already holds a successor, store
0 to the successor's waiting flag. -/
def mcsUnlock (s : MCSState) (id : Nat) : Option MCSState :=
  match (s.nodes.getD id qnodeD).next with
  | none =>
    if s.lock.tail = some id then some ⟨⟨none⟩, s.nodes⟩
    else none
  | some succ =>
    some ⟨s.lock, s.nodes.set succ ⟨(s.nodes.getD succ qnodeD).next, 0⟩⟩

/-! ### Helper lemmas -/

theorem getD_set_self {α : Type} (l : List α) (i : Nat) (a d : α)
    (h : i < l.length) : (l.set i a).getD i d = a := by
  induction l generalizing i with
  | nil => simp at h
  | cons x xs ih =>
    cases i with
    | zero => rfl
    | succ n =>
      simp only [List.set_cons_succ, List.getD_cons_succ]
      exact ih n (by simpa using h)

theorem getD_set_other {α : Type} (l : List α) (i j : Nat) (a d : α)
    (h : j ≠ i) : (l.set i a).getD j d = l.getD j d := by
  induction l generalizing i j with
  | nil => simp [List.getD]
  | cons x xs ih =>
    cases i with
    | zero =>
      cases j with
      | zero => exact absurd rfl h
      | succ m => rfl
    | succ n =>
      cases j with
      | zero => rfl
      | succ m =>
        simp only [List.set_cons_succ, List.getD_cons_succ]
        exact ih n m (fun hc => h (by rw [hc]))

theorem getD_replicate_of_lt {α : Type} (n j : Nat) (x d : α)
    (h : j < n) : (List.replicate n x).getD j d = x := by
  induction n generalizing j with
  | zero => simp at h
  | succ m ih =>
    cases j with
    | zero => rfl
    | succ k =>
      simp only [List.replicate_succ, List.getD_cons_succ]
      exact ih k (by omega)

/-! ### Claim theorems -/

/-- Claim C10: subAbs computes the exact absolute difference of two uint32
values (max minus min, with no modular wraparound); consequently it is
commutative and zero on equal arguments. -/
theorem subAbs_exact_abs_diff (a b : Nat) (ha : a < U32) (hb : b < U32) :
    subAbs a b = max a b - min a b ∧ subAbs a b = subAbs b a ∧
      subAbs a a = 0 := by
  simp only [subAbs, wsub, U32] at *
  refine ⟨?_, ?_, ?_⟩
  · split <;> omega
  · split <;> split <;> omega
  · simp

theorem subAbs_exact_abs_diff_witness :
    subAbs 10 5 = max 10 5 - min 10 5 ∧ subAbs 10 5 = subAbs 5 10 ∧
      subAbs 10 10 = 0 :=
  subAbs_exact_abs_diff 10 5 (by decide) (by decide)

/-- Claim C8: a freshly constructed, never-locked lock reports itself free:
NewLock for the ticket lock yields head = 1, tail = 0 with isFree true,
and NewLock for the MCS lock yields tail = nil with IsFree true. -/
theorem fresh_locks_report_free :
    newTicketLock.head = 1 ∧ newTicketLock.tail = 0 ∧
      newTicketLock.isFree = true ∧
      newMCSLock.tail = none ∧ mcsIsFree newMCSLock = true := by
  refine ⟨rfl, rfl, ?_, rfl, rfl⟩
  decide

theorem tryLock_eq (hd tl : Nat) (h1 : hd < U32) (h2 : tl < U32) :
    TicketLock.tryLock ⟨hd, tl⟩ =
      if hd = (tl + 1) % U32 then (true, ⟨hd, (tl + 1) % U32⟩)
      else (false, ⟨hd, tl⟩) := by
  have hcond : (TicketLock.word ⟨hd, tl⟩ =
      packWord (wadd (tl % U32) 1) (tl % U32)) ↔ hd = (tl + 1) % U32 := by
    simp only [TicketLock.word, packWord, wadd, U32] at *
    constructor <;> intro h <;> omega
  simp only [TicketLock.tryLock]
  by_cases hc : hd = (tl + 1) % U32
  · rw [if_pos (hcond.mpr hc), if_pos hc]
    have hval : wadd (tl % U32) 1 = (tl + 1) % U32 := by
      simp only [wadd, U32] at *
      omega
    rw [hval, hc]
  · rw [if_neg (fun h => hc (hcond.mp h)), if_neg hc]

/-- Claim C1: TryLock of the ticket lock is a single CAS on the packed word,
succeeding exactly when head = tail + 1 (mod 2^32) at the CAS; on success
tail advances by one and head is unchanged.  Being one pure CAS step it
involves no spinning or retry. -/
theorem ticket_tryLock_single_cas (l : TicketLock) (hw : l.wf) :
    ((l.tryLock).1 = true ↔ l.head = wadd l.tail 1) ∧
    ((l.tryLock).1 = true →
      (l.tryLock).2.head = l.head ∧ (l.tryLock).2.tail = wadd l.tail 1) := by
  obtain ⟨h1, h2⟩ := hw
  rcases l with ⟨hd, tl⟩
  rw [tryLock_eq hd tl h1 h2]
  by_cases hc : hd = (tl + 1) % U32
  · rw [if_pos hc]
    exact ⟨⟨fun _ => hc, fun _ => rfl⟩, fun _ => ⟨rfl, rfl⟩⟩
  · rw [if_neg hc]
    exact ⟨⟨fun h => by simp at h, fun h => absurd h hc⟩,
      fun h => by simp at h⟩

theorem ticket_tryLock_single_cas_witness :
    newTicketLock.wf ∧
    ((newTicketLock.tryLock).1 = true ↔
      newTicketLock.head = wadd newTicketLock.tail 1) ∧
    ((newTicketLock.tryLock).1 = true →
      (newTicketLock.tryLock).2.head = newTicketLock.head ∧
      (newTicketLock.tryLock).2.tail = wadd newTicketLock.tail 1) :=
  ⟨by decide, ticket_tryLock_single_cas newTicketLock (by decide)⟩

/-- Claim C4: TryLock of the MCS lock is one CAS of tail from nil to the
caller's node: it returns true iff tail was nil, and on success tail
afterwards points to the node. -/
theorem mcs_tryLock_single_cas (s : MCSState) (id : Nat) :
    ((mcsTryLock s id).1 = true ↔ s.lock.tail = none) ∧
    (s.lock.tail = none → (mcsTryLock s id).2.lock.tail = some id) := by
  cases h : s.lock.tail <;> simp [mcsTryLock, h]

theorem mcs_tryLock_single_cas_witness :
    ((mcsTryLock ⟨⟨none⟩, []⟩ 0).1 = true) ∧
    ((mcsTryLock ⟨⟨none⟩, []⟩ 0).2.lock.tail = some 0) :=
  ⟨(mcs_tryLock_single_cas ⟨⟨none⟩, []⟩ 0).1.mpr rfl,
    (mcs_tryLock_single_cas ⟨⟨none⟩, []⟩ 0).2 rfl⟩

/-- Claim C9: TryLock of the MCS lock stores nil into the caller node's next
field unconditionally, before the CAS, even when it returns false; the
node's waiting field and every other node are untouched. -/
theorem mcs_tryLock_node_frame (s : MCSState) (id : Nat)
    (h : id < s.nodes.length) :
    ((mcsTryLock s id).2.nodes.getD id qnodeD).next = none ∧
    ((mcsTryLock s id).2.nodes.getD id qnodeD).waiting =
      (s.nodes.getD id qnodeD).waiting ∧
    (∀ j, j ≠ id →
      (mcsTryLock s id).2.nodes.getD j qnodeD = s.nodes.getD j qnodeD) := by
  have hnodes : (mcsTryLock s id).2.nodes =
      s.nodes.set id ⟨none, (s.nodes.getD id qnodeD).waiting⟩ := by
    cases htl : s.lock.tail <;> simp [mcsTryLock, htl]
  rw [hnodes]
  refine ⟨?_, ?_, fun j hj => getD_set_other _ _ _ _ _ hj⟩
  · rw [getD_set_self _ _ _ _ h]
  · rw [getD_set_self _ _ _ _ h]

theorem mcs_tryLock_node_frame_witness :
    (0 : Nat) < (MCSState.mk ⟨some 1⟩ [⟨some 1, 7⟩, ⟨none, 0⟩]).nodes.length ∧
    ((mcsTryLock ⟨⟨some 1⟩, [⟨some 1, 7⟩, ⟨none, 0⟩]⟩ 0).2.nodes.getD 0
        qnodeD).next = none ∧
    ((mcsTryLock ⟨⟨some 1⟩, [⟨some 1, 7⟩, ⟨none, 0⟩]⟩ 0).2.nodes.getD 0
        qnodeD).waiting =
      ((MCSState.mk ⟨some 1⟩ [⟨some 1, 7⟩, ⟨none, 0⟩]).nodes.getD 0
        qnodeD).waiting ∧
    (∀ j, j ≠ 0 →
      (mcsTryLock ⟨⟨some 1⟩, [⟨some 1, 7⟩, ⟨none, 0⟩]⟩ 0).2.nodes.getD j
          qnodeD =
        (MCSState.mk ⟨some 1⟩ [⟨some 1, 7⟩, ⟨none, 0⟩]).nodes.getD j
          qnodeD) :=
  ⟨by decide, mcs_tryLock_node_frame ⟨⟨some 1⟩, [⟨some 1, 7⟩, ⟨none, 0⟩]⟩ 0
    (by decide)⟩

/-- Claim C3: whenever TryLock returns false, the lock's shared state is what it
was before the call: the ticket lock's state (hence its packed word), the
ArrayLock's flags and tail, and the MCS lock's tail pointer. -/
theorem tryLock_false_leaves_state (l : TicketLock) (al : ArrayLock)
    (s : MCSState) (id : Nat) :
    ((l.tryLock).1 = false → (l.tryLock).2 = l) ∧
    ((alockTryLock al).1 = false →
      (alockTryLock al).2.share.flags = al.share.flags ∧
      (alockTryLock al).2.share.tail = al.share.tail) ∧
    ((mcsTryLock s id).1 = false →
      (mcsTryLock s id).2.lock.tail = s.lock.tail) := by
  refine ⟨fun h => ?_, fun h => ?_, fun h => ?_⟩
  · simp only [TicketLock.tryLock] at h ⊢
    split at h
    · simp at h
    · rename_i hc
      rw [if_neg hc]
  · simp only [alockTryLock] at h ⊢
    split at h
    · simp at h
    · rename_i hc
      rw [if_neg hc]
      exact ⟨rfl, rfl⟩
  · cases htl : s.lock.tail
    · simp [mcsTryLock, htl] at h
    · simp [mcsTryLock, htl]

theorem tryLock_false_leaves_state_witness :
    ((TicketLock.tryLock ⟨0, 0⟩).1 = false →
      (TicketLock.tryLock ⟨0, 0⟩).2 = ⟨0, 0⟩) ∧
    ((alockTryLock ⟨⟨[0, 1], 0, 2⟩, 0⟩).1 = false →
      (alockTryLock ⟨⟨[0, 1], 0, 2⟩, 0⟩).2.share.flags = [0, 1] ∧
      (alockTryLock ⟨⟨[0, 1], 0, 2⟩, 0⟩).2.share.tail = 0) ∧
    ((mcsTryLock ⟨⟨some 0⟩, [⟨none, 0⟩]⟩ 0).1 = false →
      (mcsTryLock ⟨⟨some 0⟩, [⟨none, 0⟩]⟩ 0).2.lock.tail = some 0) :=
  tryLock_false_leaves_state ⟨0, 0⟩ ⟨⟨[0, 1], 0, 2⟩, 0⟩
    ⟨⟨some 0⟩, [⟨none, 0⟩]⟩ 0

/-- Claim C6: in Lock of the ticket lock, if head equals the caller's ticket the
wait loop is never entered (no spinning); otherwise each probe recomputes
distance = subAbs(head, ticket) and (a) for distance > 1 busy-spins for
distance * wait iterations, with wait reset to the base constant 10
exactly when distance changed since the previous probe, (b) for distance
exactly 1 busy-spins a fixed 5 iterations, and (c) sleeps about a
millisecond exactly when distance > 20. -/
theorem ticket_lock_spin_schedule (head ticket wait distancePrev : Nat) :
    (head = ticket → lockWaitStep head ticket wait distancePrev = none) ∧
    (head ≠ ticket →
      lockWaitStep head ticket wait distancePrev =
        some (lockProbe head ticket wait distancePrev) ∧
      ((lockProbe head ticket wait distancePrev).sleeps = true ↔
        subAbs head ticket > 20) ∧
      (subAbs head ticket = 1 →
        (lockProbe head ticket wait distancePrev).spinIters =
          ticketWaitNext ∧ ticketWaitNext = 5) ∧
      (subAbs head ticket > 1 → subAbs head ticket ≠ distancePrev →
        (lockProbe head ticket wait distancePrev).wait = ticketBaseWait ∧
        ticketBaseWait = 10 ∧
        (lockProbe head ticket wait distancePrev).spinIters =
          subAbs head ticket * ticketBaseWait % U32) ∧
      (subAbs head ticket > 1 → subAbs head ticket = distancePrev →
        (lockProbe head ticket wait distancePrev).wait = wait ∧
        (lockProbe head ticket wait distancePrev).spinIters =
          subAbs head ticket * wait % U32)) := by
  constructor
  · intro h
    simp [lockWaitStep, h]
  · intro h
    refine ⟨by simp [lockWaitStep, h], ?_, ?_, ?_, ?_⟩
    · simp only [lockProbe]
      split <;> simp
    · intro hd
      refine ⟨?_, rfl⟩
      simp [lockProbe, hd]
    · intro hd hne
      refine ⟨?_, rfl, ?_⟩ <;> simp [lockProbe, hd, hne]
    · intro hd heq
      have hd2 : 1 < distancePrev := heq ▸ hd
      simp [lockProbe, heq, hd2]

theorem ticket_lock_spin_schedule_witness :
    (25 : Nat) ≠ 2 ∧
    lockWaitStep 25 2 10 1 = some (lockProbe 25 2 10 1) ∧
    (lockProbe 25 2 10 1).wait = ticketBaseWait ∧
    (lockProbe 25 2 10 1).spinIters = subAbs 25 2 * ticketBaseWait % U32 ∧
    (lockProbe 25 2 10 1).sleeps = true := by
  have h := (ticket_lock_spin_schedule 25 2 10 1).2 (by decide)
  have hd := h.2.2.2.1 (by decide) (by decide)
  exact ⟨by decide, h.1, hd.1, hd.2.2, h.2.1.mpr (by decide)⟩

/-- Claim C5: Unlock of the MCS lock by cases on node.next: with a successor
recorded, it clears the successor's waiting flag and leaves the tail
pointer (and every other node) unchanged; with node.next nil and tail
still equal to the node, the CAS of tail to nil succeeds and the lock is
free afterwards (IsFree is true), with the nodes untouched. -/
theorem mcs_unlock_cases (s : MCSState) (id : Nat) :
    (∀ succ, succ < s.nodes.length →
      (s.nodes.getD id qnodeD).next = some succ →
      ∃ s2, mcsUnlock s id = some s2 ∧
        s2.lock = s.lock ∧
        (s2.nodes.getD succ qnodeD).waiting = 0 ∧
        (s2.nodes.getD succ qnodeD).next = (s.nodes.getD succ qnodeD).next ∧
        (∀ j, j ≠ succ → s2.nodes.getD j qnodeD = s.nodes.getD j qnodeD)) ∧
    ((s.nodes.getD id qnodeD).next = none → s.lock.tail = some id →
      ∃ s2, mcsUnlock s id = some s2 ∧
        mcsIsFree s2.lock = true ∧ s2.nodes = s.nodes) := by
  constructor
  · intro succ hlt hnext
    refine ⟨⟨s.lock, s.nodes.set succ ⟨(s.nodes.getD succ qnodeD).next, 0⟩⟩,
      ?_, rfl, ?_, ?_, ?_⟩
    · simp only [mcsUnlock]
      rw [hnext]
    · simp only [getD_set_self _ _ _ _ hlt]
    · simp only [getD_set_self _ _ _ _ hlt]
    · intro j hj
      exact getD_set_other _ _ _ _ _ hj
  · intro hnext htail
    refine ⟨⟨⟨none⟩, s.nodes⟩, ?_, rfl, rfl⟩
    simp only [mcsUnlock]
    rw [hnext, htail]
    simp

theorem mcs_unlock_cases_witness :
    (∃ s2, mcsUnlock ⟨⟨some 1⟩, [⟨some 1, 0⟩, ⟨none, 1⟩]⟩ 0 = some s2 ∧
      s2.lock = MCSLock.mk (some 1) ∧
      (s2.nodes.getD 1 qnodeD).waiting = 0 ∧
      (s2.nodes.getD 1 qnodeD).next =
        ((MCSState.mk ⟨some 1⟩ [⟨some 1, 0⟩, ⟨none, 1⟩]).nodes.getD 1
          qnodeD).next ∧
      (∀ j, j ≠ 1 → s2.nodes.getD j qnodeD =
        (MCSState.mk ⟨some 1⟩ [⟨some 1, 0⟩, ⟨none, 1⟩]).nodes.getD j
          qnodeD)) ∧
    (∃ s2, mcsUnlock ⟨⟨some 0⟩, [⟨none, 0⟩]⟩ 0 = some s2 ∧
      mcsIsFree s2.lock = true ∧
      s2.nodes = [QNode.mk none 0]) :=
  ⟨(mcs_unlock_cases ⟨⟨some 1⟩, [⟨some 1, 0⟩, ⟨none, 1⟩]⟩ 0).1 1
      (by decide) (by decide),
    (mcs_unlock_cases ⟨⟨some 0⟩, [⟨none, 0⟩]⟩ 0).2 (by decide) (by decide)⟩

/-- Claim C7: construction of an ArrayLock of capacity N (N > 0) opens exactly
flag[0]; and from any state in which exactly the holder's slot flag is
open, Unlock yields a state in which exactly the flag at slot
(myIndex + 1) mod N is open, with the tail counter and every other flag
unchanged. -/
theorem arraylock_one_open_invariant (n : Nat) (hn : 0 < n) :
    (∀ al, newArrayLock n = some al →
      al.share.flags.length = n ∧ exactlyOneOpen al.share.flags 0) ∧
    (∀ al : ArrayLock, al.share.size = n → al.share.flags.length = n →
      al.myIndex < n → exactlyOneOpen al.share.flags al.myIndex →
      (alockUnlock al).share.flags.length = n ∧
      exactlyOneOpen (alockUnlock al).share.flags ((al.myIndex + 1) % n) ∧
      (alockUnlock al).share.tail = al.share.tail ∧
      (∀ j, j < n → j ≠ al.myIndex → j ≠ (al.myIndex + 1) % n →
        (alockUnlock al).share.flags.getD j 0 =
          al.share.flags.getD j 0)) := by
  constructor
  · intro al hal
    unfold newArrayLock at hal
    rw [if_neg (by omega : ¬ n = 0)] at hal
    obtain rfl := (Option.some.inj hal).symm
    have hlen : ((List.replicate n 0).set 0 1).length = n := by simp
    refine ⟨hlen, ?_, ?_⟩
    · exact getD_set_self _ _ _ _ (by simpa [hlen] using hn)
    · intro j hj hj0
      rw [getD_set_other _ _ _ _ _ hj0]
      exact getD_replicate_of_lt _ _ _ _ (by simpa [hlen] using hj)
  · intro al hsz hlen hidx hop
    obtain ⟨⟨f, tl, sz⟩, i⟩ := al
    simp only at hsz hlen hidx hop
    subst hsz
    obtain ⟨hop1, hop2⟩ := hop
    have hm : (i + 1) % sz < sz := Nat.mod_lt _ hn
    refine ⟨?_, ⟨?_, ?_⟩, rfl, ?_⟩
    · simp only [alockUnlock]
      simp [hlen]
    · simp only [alockUnlock]
      exact getD_set_self _ _ _ _ (by simp [hlen, hm])
    · intro j hj hjne
      simp only [alockUnlock] at hj ⊢
      rw [getD_set_other _ _ _ _ _ hjne]
      by_cases hji : j = i
      · subst hji
        exact getD_set_self _ _ _ _ (by simp [hlen]; omega)
      · rw [getD_set_other _ _ _ _ _ hji]
        exact hop2 j (by simpa [hlen] using hj) hji
    · intro j hj hji hjn
      simp only [alockUnlock]
      rw [getD_set_other _ _ _ _ _ hjn, getD_set_other _ _ _ _ _ hji]

theorem arraylock_one_open_invariant_witness :
    ((ArrayLock.mk ⟨[1, 0], 0, 2⟩ 0).share.flags.length = 2 ∧
      exactlyOneOpen (ArrayLock.mk ⟨[1, 0], 0, 2⟩ 0).share.flags 0) ∧
    ((alockUnlock ⟨⟨[1, 0], 5, 2⟩, 0⟩).share.flags.length = 2 ∧
      exactlyOneOpen (alockUnlock ⟨⟨[1, 0], 5, 2⟩, 0⟩).share.flags
        ((0 + 1) % 2) ∧
      (alockUnlock ⟨⟨[1, 0], 5, 2⟩, 0⟩).share.tail = 5 ∧
      (∀ j, j < 2 → j ≠ 0 → j ≠ (0 + 1) % 2 →
        (alockUnlock ⟨⟨[1, 0], 5, 2⟩, 0⟩).share.flags.getD j 0 =
          (ArrayLock.mk ⟨[1, 0], 5, 2⟩ 0).share.flags.getD j 0)) :=
  ⟨(arraylock_one_open_invariant 2 (by decide)).1 ⟨⟨[1, 0], 0, 2⟩, 0⟩
      (by decide),
    (arraylock_one_open_invariant 2 (by decide)).2 ⟨⟨[1, 0], 5, 2⟩, 0⟩
      rfl rfl (by decide) (by decide)⟩

/-- Claim C2 (code-bug evidence): on a freshly constructed ArrayLock of
capacity 4, Lock computes slot 1, not slot 0: atomic.AddUint32 returns
the incremented tail, so the first Lock call gets slot (0+1) mod 4 = 1,
whose flag is 0 (the spin loop does not exit), while the open flag sits
at slot 0. -/
theorem arraylock_first_lock_gets_slot_one :
    (newArrayLock 4).map (fun al =>
      ((alockLockEnter al).2.1, (alockLockEnter al).2.2,
        al.share.flags.getD 0 0, al.share.flags.getD 1 0)) =
      some (1, false, 1, 0) := by decide

end GoLocks
